import Mathlib

/-!
Verification of the `latch-top` resource reporter (src/latch_top.py).

The development shallowly embeds the program's core: the `si_unit` byte
formatter, the cgroup `memory.stat` field parser, and the sampling engine
(`ProcessInfo` / `ProcessStats`).  Python floats are modelled as rationals,
Python strings as `String` or `List Char`, the `OrderedDict` of process
records as an insertion-ordered association list, the process enumeration
delivered by psutil as an explicit list of samples, and the fatal
`SystemExit(1)` paths of the parser as `Except` errors.

The file is organised as definitions first, then theorems.
-/

namespace LatchTop

/-! ### Definitions: `si_unit` (src/latch_top.py lines 23-29)

`si_unit` divides its argument by 1000 while the magnitude is at least
1000, walking the suffix tuple `("B","k","M","G","T","P","E","Z")`, and
renders the scaled value with one decimal place (`f"{num:.1f}{unit}"`).
-/

/-- Rounding of `10 * q` to an integer, ties to even, computed on the
numerator/denominator of `q`.  This models the rounding Python's
`f"{num:.1f}"` format applies to the scaled magnitude. -/
def rnd10 (q : ℚ) : ℤ :=
  let n : ℤ := q.num * 10
  let d : ℤ := (q.den : ℤ)
  let f : ℤ := n.fdiv d
  let r : ℤ := n - f * d
  if 2 * r < d then f
  else if d < 2 * r then f + 1
  else if f % 2 = 0 then f else f + 1

/-- Rendering of a rational with one decimal place: the `f"{num:.1f}"`
part of `si_unit`. -/
def format1 (q : ℚ) : String :=
  let v : ℤ := rnd10 q
  let m : ℕ := v.natAbs
  let s : String := toString (m / 10) ++ "." ++ toString (m % 10)
  if v < 0 then "-" ++ s else s

/-- The suffix tuple iterated by `si_unit` (line 25). -/
def siUnits : List String := ["B", "k", "M", "G", "T", "P", "E", "Z"]

/-- The `for unit in (...)` loop of `si_unit` (lines 25-28): stop at the
current unit once the magnitude is below 1000; on the last unit the loop
body still divides once more before the iteration ends. -/
def siLoop : ℚ → List String → ℚ × String
  | num, [] => (num, "")
  | num, unit :: us =>
    if |num| < 1000 then (num, unit)
    else
      match us with
      | [] => (num / 1000, unit)
      | _ :: _ => siLoop (num / 1000) us

/-- `si_unit` (lines 23-29): scale through the suffix tuple and render
with one decimal place. -/
def si_unit (num : ℚ) : String :=
  let p := siLoop num siUnits
  format1 p.1 ++ p.2

/-- Index of the suffix `si_unit` selects for input `q`: the number of
divisions by 1000 the loop performs before stopping, capped at 7 (the
position of `"Z"`). -/
def unitIdx (q : ℚ) : ℕ :=
  if |q| < 1000 then 0
  else if |q / 1000| < 1000 then 1
  else if |q / 1000 / 1000| < 1000 then 2
  else if |q / 1000 / 1000 / 1000| < 1000 then 3
  else if |q / 1000 / 1000 / 1000 / 1000| < 1000 then 4
  else if |q / 1000 / 1000 / 1000 / 1000 / 1000| < 1000 then 5
  else if |q / 1000 / 1000 / 1000 / 1000 / 1000 / 1000| < 1000 then 6
  else 7

/-! ### Definitions: `parse_memory_stat_content` (src/latch_top.py lines 32-47)

The engine extracts two integer fields from the cgroup `memory.stat`
text with `re.search` on the patterns `hierarchical_memory_limit (\d+)`
and `total_cache (\d+)` (lines 126-135).  Both patterns are a literal
field name, one space, and a captured run of digits; the embedding
implements exactly that matching semantics over `List Char`.  Both
failure paths of the function `raise SystemExit(1)`; they are modelled
as `Except.error` values whose `exitCode` is 1. -/

/-- Literal-prefix test on character lists. -/
def startsWithL : List Char → List Char → Bool
  | [], _ => true
  | _ :: _, [] => false
  | p :: ps, c :: cs => p == c && startsWithL ps cs

/-- Whether `pat` occurs as a contiguous run anywhere in the text. -/
def occursIn (pat : List Char) : List Char → Bool
  | [] => startsWithL pat []
  | c :: cs => startsWithL pat (c :: cs) || occursIn pat cs

/-- Matching of `lit` followed by a greedy, nonempty digit run at the
start of `s`; returns the captured digit run. -/
def matchHere (lit s : List Char) : Option (List Char) :=
  if startsWithL lit s then
    let ds := (s.drop lit.length).takeWhile Char.isDigit
    if ds.isEmpty then none else some ds
  else none

/-- `re.search` for the pattern `lit(\d+)`: the leftmost position where
the whole pattern matches; returns the captured group. -/
def searchLit (lit : List Char) : List Char → Option (List Char)
  | [] => matchHere lit []
  | c :: cs =>
    match matchHere lit (c :: cs) with
    | some ds => some ds
    | none => searchLit lit cs

/-- Numeric value of a digit string. -/
def digitsToNat (s : List Char) : ℕ :=
  s.foldl (fun acc c => acc * 10 + (c.toNat - Char.toNat '0')) 0

/-- Python's `int(value)` on the strings a `(\d+)` capture can produce:
it succeeds exactly on nonempty all-digit strings (the `ValueError`
branch of the source corresponds to `none`). -/
def pyInt? (s : List Char) : Option ℕ :=
  if (!s.isEmpty && s.all Char.isDigit) = true then some (digitsToNat s) else none

/-- The two fatal outcomes of `parse_memory_stat_content`: pattern not
found (line 46) and captured value not an integer (line 40). -/
inductive ParseErr where
  | notFound : ParseErr
  | notInt : ParseErr
deriving DecidableEq

/-- Both parser failure paths `raise SystemExit(1)`. -/
def ParseErr.exitCode (_ : ParseErr) : ℕ := 1

/-- `parse_memory_stat_content` (lines 32-47) for the engine's patterns
`<value_name> (\d+)`: search the content, convert the captured group,
and fail fatally when the field is absent or the value not an integer. -/
def parse_memory_stat_content (value_name : List Char) (content : List Char) :
    Except ParseErr ℕ :=
  match searchLit (value_name ++ [' ']) content with
  | some v =>
    match pyInt? v with
    | some n => Except.ok n
    | none => Except.error ParseErr.notInt
  | none => Except.error ParseErr.notFound

/-- Field name of the memory-limit pattern (line 127). -/
def hierName : List Char := "hierarchical_memory_limit".toList

/-- Field name of the page-cache pattern (line 132). -/
def cacheName : List Char := "total_cache".toList

/-- The two parses performed by `ProcessStats.__init__` (lines 126-135),
yielding `(memory_limit_bytes, buff_cache_bytes)`. -/
def loadLimits (content : List Char) : Except ParseErr (ℕ × ℕ) :=
  match parse_memory_stat_content hierName content with
  | Except.error e => Except.error e
  | Except.ok m =>
    match parse_memory_stat_content cacheName content with
    | Except.error e => Except.error e
    | Except.ok c => Except.ok (m, c)

/-! ### Definitions: the sampling engine (src/latch_top.py lines 50-204)

`ProcessStats.update` (lines 141-174) rotates the aggregate fields and
then walks the process enumeration, inserting a fresh `ProcessInfo` for
an unseen pid and updating the stored record in place otherwise.  The
`OrderedDict` is modelled as an insertion-ordered association list. -/

/-- A process record (`ProcessInfo.__init__`, lines 50-69). -/
structure ProcessInfo where
  pid : ℕ
  user : List Char
  res : ℕ
  previous_sys_time : ℚ
  previous_user_time : ℚ
  sys_time : ℚ
  user_time : ℚ
  command : List Char
  percent_cpu : ℚ
  percent_mem : ℚ
deriving DecidableEq

/-- `ProcessInfo.__init__` (lines 50-69): previous CPU fields seeded to
the current ones, both percentages seeded to `0.0`. -/
def ProcessInfo.init (pid : ℕ) (user : List Char) (res : ℕ)
    (sys_time user_time : ℚ) (command : List Char) : ProcessInfo :=
  { pid := pid, user := user, res := res,
    previous_sys_time := sys_time, previous_user_time := user_time,
    sys_time := sys_time, user_time := user_time,
    command := command, percent_cpu := 0, percent_mem := 0 }

/-- `ProcessInfo.update_stats` (lines 71-93). -/
def ProcessInfo.update_stats (p : ProcessInfo) (new_sys_time new_user_time : ℚ)
    (new_res : ℕ) (memory_limit_bytes : ℕ) (total_cpu_time : ℚ) : ProcessInfo :=
  { p with
    previous_sys_time := p.sys_time,
    previous_user_time := p.user_time,
    sys_time := new_sys_time,
    user_time := new_user_time,
    res := new_res,
    percent_cpu :=
      (new_sys_time - p.sys_time + new_user_time - p.user_time) / total_cpu_time * 100,
    percent_mem := (new_res : ℚ) / (memory_limit_bytes : ℚ) * 100 }

/-- One element of the process enumeration: what psutil delivers for a
live process (pid, username, rss, cpu_times().system/.user, name). -/
structure ProcSample where
  pid : ℕ
  username : List Char
  rss : ℕ
  system : ℚ
  user : ℚ
  name : List Char
deriving DecidableEq

/-- The engine state (`ProcessStats.__init__` field block, lines 105-115). -/
structure ProcessStats where
  memory_limit_bytes : ℕ
  used_memory_bytes : ℕ
  buff_cache_bytes : ℕ
  previous_total_sys_time : ℚ
  previous_total_user_time : ℚ
  total_sys_time : ℚ
  total_user_time : ℚ
  timestamp : ℚ
  previous_timestamp : ℚ
  processes : List (ℕ × ProcessInfo)
deriving DecidableEq

/-- `self.processes.get(pid)` on the insertion-ordered table. -/
def lookupPid : List (ℕ × ProcessInfo) → ℕ → Option ProcessInfo
  | [], _ => none
  | (k, v) :: t, pid => if k = pid then some v else lookupPid t pid

/-- In-place mutation of the record stored under an existing pid
(the `update_stats` call on `self.processes[pid]`, line 168); position
in the table is unchanged. -/
def setPid : List (ℕ × ProcessInfo) → ℕ → ProcessInfo → List (ℕ × ProcessInfo)
  | [], _, _ => []
  | (k, w) :: t, pid, v => if k = pid then (k, v) :: t else (k, w) :: setPid t pid v

/-- The username truncation at record creation (lines 159-161):
`username if len(username) <= 8 else username[0:7] + "+"`. -/
def truncOwner (u : List Char) : List Char :=
  if u.length ≤ 8 then u else u.take 7 ++ ['+']

/-- One iteration of the enumeration loop of `ProcessStats.update`
(lines 150-174): accumulate the aggregate sums, then insert a fresh
record (appended at the end of the ordered table) or update the stored
one with the global elapsed interval `timestamp - previous_timestamp`. -/
def step (st : ProcessStats) (s : ProcSample) : ProcessStats :=
  match lookupPid st.processes s.pid with
  | none =>
    { st with
      used_memory_bytes := st.used_memory_bytes + s.rss,
      total_sys_time := st.total_sys_time + s.system,
      total_user_time := st.total_user_time + s.user,
      processes := st.processes ++
        [(s.pid, ProcessInfo.init s.pid (truncOwner s.username) s.rss s.system s.user s.name)] }
  | some p =>
    { st with
      used_memory_bytes := st.used_memory_bytes + s.rss,
      total_sys_time := st.total_sys_time + s.system,
      total_user_time := st.total_user_time + s.user,
      processes := setPid st.processes s.pid
        (p.update_stats s.system s.user s.rss st.memory_limit_bytes
          (st.timestamp - st.previous_timestamp)) }

/-- `ProcessStats.update` (lines 141-174): rotate the timestamp and the
aggregate totals, zero the accumulators, then fold the enumeration. -/
def ProcessStats.update (st : ProcessStats) (now : ℚ) (procs : List ProcSample) :
    ProcessStats :=
  List.foldl step
    { st with
      previous_timestamp := st.timestamp,
      timestamp := now,
      used_memory_bytes := 0,
      previous_total_sys_time := st.total_sys_time,
      previous_total_user_time := st.total_user_time,
      total_sys_time := 0,
      total_user_time := 0 }
    procs

/-- The aggregate CPU figure computed by `ProcessStats.print`
(lines 186-191), exactly as in the source: note that, unlike the memory
percentage on lines 183-185 and the per-process `percent_cpu` on
lines 84-92, it is NOT multiplied by 100 before being rendered with a
`%` sign on line 198. -/
def cpu_utilization_percentage (st : ProcessStats) : ℚ :=
  (st.total_sys_time - st.previous_total_sys_time
    + st.total_user_time - st.previous_total_user_time)
    / (st.timestamp - st.previous_timestamp)

/-- The sort key relation of `ProcessStats.print` (lines 200-204):
`sorted(..., key=lambda x: (x.percent_mem, x.percent_cpu), reverse=True)`
orders `a` no later than `b` exactly when the key tuple of `a` is
lexicographically at least that of `b`. -/
def sortKeyGE (a b : ProcessInfo) : Bool :=
  decide (b.percent_mem < a.percent_mem ∨
    (a.percent_mem = b.percent_mem ∧ b.percent_cpu ≤ a.percent_cpu))

/-- Python's `sorted` with `reverse=True` is a stable descending sort;
it is modelled by the stable `mergeSort` under `sortKeyGE`. -/
def displaySort (l : List ProcessInfo) : List ProcessInfo := l.mergeSort sortKeyGE

/-- The row order `ProcessStats.print` iterates (lines 200-204): the
table values in insertion order, stably sorted by the key. -/
def ProcessStats.displayList (st : ProcessStats) : List ProcessInfo :=
  displaySort (st.processes.map Prod.snd)

/-- A sequence of sampling cycles applied to an engine state; each cycle
is a wall-clock time and the process enumeration seen at that time. -/
def applyCycles (st : ProcessStats) (cycles : List (ℚ × List ProcSample)) :
    ProcessStats :=
  List.foldl (fun acc c => acc.update c.1 c.2) st cycles

/-! ### Definitions: concrete data used by witnesses and counterexamples -/

/-- Engine state right after the limits are loaded (fields as set on
lines 105-135, before the two bootstrap samples). -/
def exSt0 : ProcessStats :=
  { memory_limit_bytes := 1000000000, used_memory_bytes := 0,
    buff_cache_bytes := 204800,
    previous_total_sys_time := 0, previous_total_user_time := 0,
    total_sys_time := 0, total_user_time := 0,
    timestamp := 0, previous_timestamp := 0, processes := [] }

/-- First enumeration: one process with 1s system and 1s user time. -/
def sampleA : ProcSample :=
  { pid := 1, username := "root".toList, rss := 500000000,
    system := 1, user := 1, name := "cmd".toList }

/-- Second enumeration of the same pid: 1.5s system and 1.5s user time. -/
def sampleB : ProcSample :=
  { pid := 1, username := "root".toList, rss := 500000000,
    system := 3/2, user := 3/2, name := "cmd".toList }

/-- Two cycles at times 1 and 3: combined CPU delta 1.0s over 2.0s. -/
def stC1 : ProcessStats := (exSt0.update 1 [sampleA]).update 3 [sampleB]

/-- The state after the first cycle, used by the C4 witness. -/
def stW4 : ProcessStats := exSt0.update 1 [sampleA]

/-- The record stored for pid 1 after the first cycle. -/
def pW4 : ProcessInfo :=
  ProcessInfo.init 1 (truncOwner "root".toList) 500000000 1 1 "cmd".toList

/-- A first-seen process with nonzero cumulative CPU time. -/
def sBusy : ProcSample :=
  { pid := 7, username := "alice".toList, rss := 12345,
    system := 41, user := 59, name := "worker".toList }

/-- A fresh engine state with a 1000-byte memory limit. -/
def stFresh : ProcessStats :=
  { memory_limit_bytes := 1000, used_memory_bytes := 0, buff_cache_bytes := 0,
    previous_total_sys_time := 0, previous_total_user_time := 0,
    total_sys_time := 0, total_user_time := 0,
    timestamp := 0, previous_timestamp := 0, processes := [] }

/-- A process whose resident size equals the whole memory limit. -/
def sFull : ProcSample :=
  { pid := 1, username := "root".toList, rss := 1000,
    system := 1, user := 1, name := "hog".toList }

/-- The engine after one cycle seeing `sFull` for the first time. -/
def stC2 : ProcessStats := stFresh.update 1 [sFull]

/-- The same process one cycle later, still at the full limit. -/
def sFull2 : ProcSample :=
  { pid := 1, username := "root".toList, rss := 1000,
    system := 2, user := 2, name := "hog".toList }

/-- The record stored for `sFull` after its first sighting. -/
def pFull : ProcessInfo :=
  ProcessInfo.init 1 (truncOwner "root".toList) 1000 1 1 "hog".toList

/-- An unrelated process appearing in a later cycle. -/
def sOther : ProcSample :=
  { pid := 2, username := "bob".toList, rss := 5,
    system := 0, user := 0, name := "other".toList }

/-- Record with the smaller memory share but the larger CPU share. -/
def rMemLo : ProcessInfo :=
  { pid := 11, user := "u1".toList, res := 40, previous_sys_time := 0,
    previous_user_time := 0, sys_time := 0, user_time := 0,
    command := "a".toList, percent_cpu := 99, percent_mem := 40 }

/-- Record with the larger memory share but the smaller CPU share. -/
def rMemHi : ProcessInfo :=
  { pid := 12, user := "u2".toList, res := 80, previous_sys_time := 0,
    previous_user_time := 0, sys_time := 0, user_time := 0,
    command := "b".toList, percent_cpu := 1, percent_mem := 80 }

/-- Equal-memory record with the smaller CPU share. -/
def rCpuLo : ProcessInfo :=
  { pid := 13, user := "u3".toList, res := 50, previous_sys_time := 0,
    previous_user_time := 0, sys_time := 0, user_time := 0,
    command := "c".toList, percent_cpu := 10, percent_mem := 50 }

/-- Equal-memory record with the larger CPU share. -/
def rCpuHi : ProcessInfo :=
  { pid := 14, user := "u4".toList, res := 50, previous_sys_time := 0,
    previous_user_time := 0, sys_time := 0, user_time := 0,
    command := "d".toList, percent_cpu := 20, percent_mem := 50 }

/-- First-inserted member of a full key tie. -/
def rTieA : ProcessInfo :=
  { pid := 15, user := "u5".toList, res := 50, previous_sys_time := 0,
    previous_user_time := 0, sys_time := 0, user_time := 0,
    command := "e".toList, percent_cpu := 10, percent_mem := 50 }

/-- Second-inserted member of a full key tie. -/
def rTieB : ProcessInfo :=
  { pid := 16, user := "u6".toList, res := 50, previous_sys_time := 0,
    previous_user_time := 0, sys_time := 0, user_time := 0,
    command := "f".toList, percent_cpu := 10, percent_mem := 50 }

/-! ### Helper theorems: `si_unit` -/

/-- The suffix returned by the loop of `si_unit` is the entry of the
suffix tuple at position `unitIdx`. -/
theorem siLoop_suffix_eq (q : ℚ) :
    (siLoop q siUnits).2 = siUnits.getD (unitIdx q) "B" := by
  simp only [siUnits, siLoop, unitIdx]
  split_ifs <;> rfl

/-- The suffix index never passes the position of `"Z"`. -/
theorem unitIdx_le_seven (q : ℚ) : unitIdx q ≤ 7 := by
  unfold unitIdx
  split_ifs <;> norm_num

set_option maxHeartbeats 1600000 in
/-- On nonnegative inputs the suffix index is monotone. -/
theorem unitIdx_mono_rat (q r : ℚ) (hq : 0 ≤ q) (hqr : q ≤ r) :
    unitIdx q ≤ unitIdx r := by
  have h1q : 0 ≤ q / 1000 := by positivity
  have h2q : 0 ≤ q / 1000 / 1000 := by positivity
  have h3q : 0 ≤ q / 1000 / 1000 / 1000 := by positivity
  have h4q : 0 ≤ q / 1000 / 1000 / 1000 / 1000 := by positivity
  have h5q : 0 ≤ q / 1000 / 1000 / 1000 / 1000 / 1000 := by positivity
  have h6q : 0 ≤ q / 1000 / 1000 / 1000 / 1000 / 1000 / 1000 := by positivity
  have hr : 0 ≤ r := le_trans hq hqr
  have h1r : 0 ≤ r / 1000 := by positivity
  have h2r : 0 ≤ r / 1000 / 1000 := by positivity
  have h3r : 0 ≤ r / 1000 / 1000 / 1000 := by positivity
  have h4r : 0 ≤ r / 1000 / 1000 / 1000 / 1000 := by positivity
  have h5r : 0 ≤ r / 1000 / 1000 / 1000 / 1000 / 1000 := by positivity
  have h6r : 0 ≤ r / 1000 / 1000 / 1000 / 1000 / 1000 / 1000 := by positivity
  have m1 : q / 1000 ≤ r / 1000 := by gcongr
  have m2 : q / 1000 / 1000 ≤ r / 1000 / 1000 := by gcongr
  have m3 : q / 1000 / 1000 / 1000 ≤ r / 1000 / 1000 / 1000 := by gcongr
  have m4 : q / 1000 / 1000 / 1000 / 1000 ≤ r / 1000 / 1000 / 1000 / 1000 := by
    gcongr
  have m5 : q / 1000 / 1000 / 1000 / 1000 / 1000 ≤
      r / 1000 / 1000 / 1000 / 1000 / 1000 := by gcongr
  have m6 : q / 1000 / 1000 / 1000 / 1000 / 1000 / 1000 ≤
      r / 1000 / 1000 / 1000 / 1000 / 1000 / 1000 := by gcongr
  unfold unitIdx
  rw [abs_of_nonneg hq, abs_of_nonneg hr, abs_of_nonneg h1q, abs_of_nonneg h1r,
      abs_of_nonneg h2q, abs_of_nonneg h2r, abs_of_nonneg h3q, abs_of_nonneg h3r,
      abs_of_nonneg h4q, abs_of_nonneg h4r, abs_of_nonneg h5q, abs_of_nonneg h5r,
      abs_of_nonneg h6q, abs_of_nonneg h6r]
  split_ifs <;> first | omega | linarith

/-- Concrete evaluation: `si_unit 999 = "999.0B"`. -/
theorem si_unit_999 : si_unit 999 = "999.0B" := by
  have a1 : |(999:ℚ)| < 1000 := by
    rw [abs_of_nonneg (by norm_num : (0:ℚ) ≤ 999)]; norm_num
  simp only [si_unit, siUnits, siLoop, if_pos a1]
  show format1 999 ++ "B" = "999.0B"
  rw [show (999:ℚ) = mkRat 999 1 by rw [Rat.mkRat_eq_div]; norm_num]
  decide

/-- Concrete evaluation: `si_unit 1000 = "1.0k"`. -/
theorem si_unit_1000 : si_unit 1000 = "1.0k" := by
  have a1 : ¬ |(1000:ℚ)| < 1000 := by
    rw [abs_of_nonneg (by norm_num : (0:ℚ) ≤ 1000)]; norm_num
  have e1 : (1000:ℚ)/1000 = mkRat 1 1 := by rw [Rat.mkRat_eq_div]; norm_num
  have a2 : |(mkRat 1 1 : ℚ)| < 1000 := by decide
  simp only [si_unit, siUnits, siLoop, if_neg a1, e1, if_pos a2]
  decide

/-- Concrete evaluation: `si_unit 1500000 = "1.5M"`. -/
theorem si_unit_1500000 : si_unit 1500000 = "1.5M" := by
  have a1 : ¬ |(1500000:ℚ)| < 1000 := by
    rw [abs_of_nonneg (by norm_num : (0:ℚ) ≤ 1500000)]; norm_num
  have e1 : (1500000:ℚ)/1000 = 1500 := by norm_num
  have a2 : ¬ |(1500:ℚ)| < 1000 := by
    rw [abs_of_nonneg (by norm_num : (0:ℚ) ≤ 1500)]; norm_num
  have e2 : (1500:ℚ)/1000 = mkRat 3 2 := by rw [Rat.mkRat_eq_div]; norm_num
  have a3 : |(mkRat 3 2 : ℚ)| < 1000 := by decide
  simp only [si_unit, siUnits, siLoop, if_neg a1, e1, if_neg a2, e2, if_pos a3]
  decide

/-! ### Helper theorems: the parser -/

/-- A successful `matchHere` means the literal starts at this position. -/
theorem matchHere_starts {lit s ds : List Char} (h : matchHere lit s = some ds) :
    startsWithL lit s = true := by
  by_cases hs : startsWithL lit s = true
  · exact hs
  · simp [matchHere, hs] at h

/-- A successful `matchHere` captures a nonempty all-digit string. -/
theorem matchHere_digits {lit s ds : List Char} (h : matchHere lit s = some ds) :
    ds.isEmpty = false ∧ ds.all Char.isDigit = true := by
  by_cases hs : startsWithL lit s = true
  · simp only [matchHere, hs, if_true] at h
    by_cases he : ((s.drop lit.length).takeWhile Char.isDigit).isEmpty = true
    · simp [he] at h
    · simp only [he, if_false] at h
      cases h
      refine ⟨by simpa using he, ?_⟩
      simp only [List.all_eq_true]
      intro c hc
      exact List.mem_takeWhile_imp hc
  · simp [matchHere, hs] at h

/-- A successful search implies the literal occurs in the text. -/
theorem searchLit_occurs {lit : List Char} :
    ∀ {s ds : List Char}, searchLit lit s = some ds → occursIn lit s = true := by
  intro s
  induction s with
  | nil =>
    intro ds h
    simp only [searchLit] at h
    simp only [occursIn]
    exact matchHere_starts h
  | cons c cs ih =>
    intro ds h
    simp only [searchLit] at h
    simp only [occursIn, Bool.or_eq_true]
    cases hm : matchHere lit (c :: cs) with
    | some v => exact Or.inl (matchHere_starts hm)
    | none =>
      rw [hm] at h
      exact Or.inr (ih h)

/-- A prefix of a starting literal also starts there. -/
theorem startsWithL_append_left :
    ∀ {a b s : List Char}, startsWithL (a ++ b) s = true → startsWithL a s = true := by
  intro a
  induction a with
  | nil => intro b s _; rfl
  | cons x xs ih =>
    intro b s h
    cases s with
    | nil => simp [startsWithL] at h
    | cons y ys =>
      simp only [List.cons_append, startsWithL, Bool.and_eq_true] at h ⊢
      exact ⟨h.1, ih h.2⟩

/-- If `a ++ b` occurs in a text, so does `a`. -/
theorem occursIn_append_left :
    ∀ {a b s : List Char}, occursIn (a ++ b) s = true → occursIn a s = true := by
  intro a b s
  induction s with
  | nil =>
    intro h
    simp only [occursIn] at h ⊢
    exact startsWithL_append_left h
  | cons c cs ih =>
    intro h
    simp only [occursIn, Bool.or_eq_true] at h ⊢
    rcases h with h | h
    · exact Or.inl (startsWithL_append_left h)
    · exact Or.inr (ih h)

/-- Any captured group produced by the search is a nonempty digit string. -/
theorem searchLit_digits {lit : List Char} :
    ∀ {s ds : List Char}, searchLit lit s = some ds →
      ds.isEmpty = false ∧ ds.all Char.isDigit = true := by
  intro s
  induction s with
  | nil =>
    intro ds h
    simp only [searchLit] at h
    exact matchHere_digits h
  | cons c cs ih =>
    intro ds h
    simp only [searchLit] at h
    cases hm : matchHere lit (c :: cs) with
    | some v =>
      rw [hm] at h
      cases h
      exact matchHere_digits hm
    | none =>
      rw [hm] at h
      exact ih h

/-- The parser either returns the value of the first match or fails with
the field-absent error; the non-integer error is unreachable. -/
theorem parse_not_notInt (value_name content : List Char) :
    (∃ n, parse_memory_stat_content value_name content = Except.ok n) ∨
    parse_memory_stat_content value_name content = Except.error ParseErr.notFound := by
  unfold parse_memory_stat_content
  cases hs : searchLit (value_name ++ [' ']) content with
  | none => exact Or.inr rfl
  | some v =>
    obtain ⟨h1, h2⟩ := searchLit_digits hs
    left
    refine ⟨digitsToNat v, ?_⟩
    simp [pyInt?, h1, h2]

/-- If a field name does not occur in the content, the parse fails with
the field-absent fatal error. -/
theorem parse_absent {value_name content : List Char}
    (h : occursIn value_name content = false) :
    parse_memory_stat_content value_name content = Except.error ParseErr.notFound := by
  unfold parse_memory_stat_content
  cases hs : searchLit (value_name ++ [' ']) content with
  | none => rfl
  | some v =>
    exfalso
    have := occursIn_append_left (searchLit_occurs hs)
    rw [h] at this
    exact Bool.false_ne_true this

/-! ### Helper theorems: the sampling engine -/

/-- One loop iteration never changes the limit or the two timestamps. -/
theorem step_frame (st : ProcessStats) (s : ProcSample) :
    (step st s).memory_limit_bytes = st.memory_limit_bytes ∧
    (step st s).timestamp = st.timestamp ∧
    (step st s).previous_timestamp = st.previous_timestamp := by
  unfold step
  cases lookupPid st.processes s.pid <;> exact ⟨rfl, rfl, rfl⟩

/-- The whole enumeration fold never changes the limit or timestamps. -/
theorem foldl_frame :
    ∀ (l : List ProcSample) (st : ProcessStats),
      (List.foldl step st l).memory_limit_bytes = st.memory_limit_bytes ∧
      (List.foldl step st l).timestamp = st.timestamp ∧
      (List.foldl step st l).previous_timestamp = st.previous_timestamp := by
  intro l
  induction l with
  | nil => intro st; exact ⟨rfl, rfl, rfl⟩
  | cons s t ih =>
    intro st
    obtain ⟨h1, h2, h3⟩ := ih (step st s)
    obtain ⟨g1, g2, g3⟩ := step_frame st s
    exact ⟨h1.trans g1, h2.trans g2, h3.trans g3⟩

/-- Mutating a stored pid makes lookup return the new record. -/
theorem lookupPid_setPid_self :
    ∀ (l : List (ℕ × ProcessInfo)) (pid : ℕ) (v p : ProcessInfo),
      lookupPid l pid = some p → lookupPid (setPid l pid v) pid = some v := by
  intro l
  induction l with
  | nil => intro pid v p h; simp [lookupPid] at h
  | cons kv t ih =>
    intro pid v p h
    obtain ⟨k, w⟩ := kv
    by_cases hk : k = pid
    · simp [lookupPid, setPid, hk]
    · simp only [lookupPid, setPid, if_neg hk] at h ⊢
      exact ih pid v p h

/-- Mutating one pid leaves lookups of other pids unchanged. -/
theorem lookupPid_setPid_ne :
    ∀ (l : List (ℕ × ProcessInfo)) (pid pid' : ℕ) (v : ProcessInfo), pid' ≠ pid →
      lookupPid (setPid l pid' v) pid = lookupPid l pid := by
  intro l
  induction l with
  | nil => intro pid pid' v _; rfl
  | cons kv t ih =>
    intro pid pid' v hne
    obtain ⟨k, w⟩ := kv
    by_cases hk : k = pid'
    · subst hk
      simp [lookupPid, setPid, if_neg hne]
    · simp only [setPid, if_neg hk, lookupPid]
      by_cases hkp : k = pid
      · simp [hkp]
      · simp only [if_neg hkp]
        exact ih pid pid' v hne

/-- Appending a record for another pid leaves a lookup unchanged. -/
theorem lookupPid_append_ne :
    ∀ (l : List (ℕ × ProcessInfo)) (pid k : ℕ) (v : ProcessInfo), k ≠ pid →
      lookupPid (l ++ [(k, v)]) pid = lookupPid l pid := by
  intro l
  induction l with
  | nil => intro pid k v h; simp [lookupPid, if_neg h]
  | cons kv t ih =>
    intro pid k v h
    obtain ⟨k', w⟩ := kv
    by_cases hk : k' = pid
    · simp [lookupPid, hk]
    · simp only [List.cons_append, lookupPid, if_neg hk]
      exact ih pid k v h

/-- Appending a record for an absent pid makes lookup return it. -/
theorem lookupPid_append_self :
    ∀ (l : List (ℕ × ProcessInfo)) (k : ℕ) (v : ProcessInfo),
      lookupPid l k = none → lookupPid (l ++ [(k, v)]) k = some v := by
  intro l
  induction l with
  | nil => intro k v _; simp [lookupPid]
  | cons kv t ih =>
    intro k v h
    obtain ⟨k', w⟩ := kv
    by_cases hk : k' = k
    · simp [lookupPid, hk] at h
    · simp only [lookupPid, if_neg hk] at h
      simp only [List.cons_append, lookupPid, if_neg hk]
      exact ih k v h

/-- A loop iteration for a different pid leaves a lookup unchanged. -/
theorem lookup_step_ne (st : ProcessStats) (s : ProcSample) (pid : ℕ)
    (h : s.pid ≠ pid) :
    lookupPid (step st s).processes pid = lookupPid st.processes pid := by
  unfold step
  cases hm : lookupPid st.processes s.pid with
  | none => exact lookupPid_append_ne st.processes pid s.pid _ h
  | some p => exact lookupPid_setPid_ne st.processes pid s.pid _ h

/-- Folding samples of other pids leaves a lookup unchanged. -/
theorem lookup_foldl_ne :
    ∀ (l : List ProcSample) (st : ProcessStats) (pid : ℕ),
      pid ∉ l.map ProcSample.pid →
      lookupPid (List.foldl step st l).processes pid = lookupPid st.processes pid := by
  intro l
  induction l with
  | nil => intro st pid _; rfl
  | cons s t ih =>
    intro st pid h
    simp only [List.map_cons, List.mem_cons, not_or] at h
    have := ih (step st s) pid (by simpa using h.2)
    rw [List.foldl_cons, this]
    exact lookup_step_ne st s pid (fun he => h.1 he.symm)

/-- A loop iteration for a stored pid replaces its record by the
`update_stats` result computed with the engine's limit and the global
elapsed interval. -/
theorem lookup_step_present (st : ProcessStats) (s : ProcSample) (p : ProcessInfo)
    (h : lookupPid st.processes s.pid = some p) :
    lookupPid (step st s).processes s.pid =
      some (p.update_stats s.system s.user s.rss st.memory_limit_bytes
        (st.timestamp - st.previous_timestamp)) := by
  unfold step
  rw [h]
  exact lookupPid_setPid_self st.processes s.pid _ p h

/-- A loop iteration for an unseen pid appends the freshly initialised
record. -/
theorem lookup_step_absent (st : ProcessStats) (s : ProcSample)
    (h : lookupPid st.processes s.pid = none) :
    lookupPid (step st s).processes s.pid =
      some (ProcessInfo.init s.pid (truncOwner s.username) s.rss s.system s.user s.name) := by
  unfold step
  rw [h]
  exact lookupPid_append_self st.processes s.pid _ h

/-- A loop iteration never erases a stored pid. -/
theorem lookup_step_isSome (st : ProcessStats) (s : ProcSample) (pid : ℕ)
    (p : ProcessInfo) (h : lookupPid st.processes pid = some p) :
    ∃ r, lookupPid (step st s).processes pid = some r := by
  by_cases he : s.pid = pid
  · subst he
    exact ⟨_, lookup_step_present st s p h⟩
  · rw [lookup_step_ne st s pid he]
    exact ⟨p, h⟩

/-- The enumeration fold never erases a stored pid. -/
theorem lookup_foldl_isSome :
    ∀ (l : List ProcSample) (st : ProcessStats) (pid : ℕ) (p : ProcessInfo),
      lookupPid st.processes pid = some p →
      ∃ r, lookupPid (List.foldl step st l).processes pid = some r := by
  intro l
  induction l with
  | nil => intro st pid p h; exact ⟨p, h⟩
  | cons s t ih =>
    intro st pid p h
    obtain ⟨r, hr⟩ := lookup_step_isSome st s pid p h
    exact ih (step st s) pid r hr

/-- Central cycle lemma, update case: a pid sampled exactly once in a
cycle and already stored ends the cycle with the `update_stats` result,
computed with the engine's limit and the elapsed interval
`now - st.timestamp`. -/
theorem update_lookup_present (st : ProcessStats) (now : ℚ)
    (l₁ l₂ : List ProcSample) (s : ProcSample) (p : ProcessInfo)
    (h₁ : s.pid ∉ l₁.map ProcSample.pid) (h₂ : s.pid ∉ l₂.map ProcSample.pid)
    (hp : lookupPid st.processes s.pid = some p) :
    lookupPid (st.update now (l₁ ++ s :: l₂)).processes s.pid =
      some (p.update_stats s.system s.user s.rss st.memory_limit_bytes
        (now - st.timestamp)) := by
  unfold ProcessStats.update
  rw [List.foldl_append, List.foldl_cons]
  set st0 : ProcessStats :=
    { st with
      previous_timestamp := st.timestamp,
      timestamp := now,
      used_memory_bytes := 0,
      previous_total_sys_time := st.total_sys_time,
      previous_total_user_time := st.total_user_time,
      total_sys_time := 0,
      total_user_time := 0 } with hst0
  obtain ⟨f1, f2, f3⟩ := foldl_frame l₁ st0
  have hl : lookupPid (List.foldl step st0 l₁).processes s.pid = some p := by
    rw [lookup_foldl_ne l₁ st0 s.pid h₁]
    exact hp
  rw [lookup_foldl_ne l₂ _ s.pid h₂]
  rw [lookup_step_present _ s p hl]
  rw [f1, f2, f3]

/-- Central cycle lemma, insertion case: a pid sampled exactly once in a
cycle and not yet stored ends the cycle with the freshly initialised
record. -/
theorem update_lookup_absent (st : ProcessStats) (now : ℚ)
    (l₁ l₂ : List ProcSample) (s : ProcSample)
    (h₁ : s.pid ∉ l₁.map ProcSample.pid) (h₂ : s.pid ∉ l₂.map ProcSample.pid)
    (hp : lookupPid st.processes s.pid = none) :
    lookupPid (st.update now (l₁ ++ s :: l₂)).processes s.pid =
      some (ProcessInfo.init s.pid (truncOwner s.username) s.rss s.system s.user s.name) := by
  unfold ProcessStats.update
  rw [List.foldl_append, List.foldl_cons]
  set st0 : ProcessStats :=
    { st with
      previous_timestamp := st.timestamp,
      timestamp := now,
      used_memory_bytes := 0,
      previous_total_sys_time := st.total_sys_time,
      previous_total_user_time := st.total_user_time,
      total_sys_time := 0,
      total_user_time := 0 } with hst0
  have hl : lookupPid (List.foldl step st0 l₁).processes s.pid = none := by
    rw [lookup_foldl_ne l₁ st0 s.pid h₁]
    exact hp
  rw [lookup_foldl_ne l₂ _ s.pid h₂]
  exact lookup_step_absent _ s hl

/-- A whole sampling cycle never erases a stored pid. -/
theorem update_lookup_isSome (st : ProcessStats) (now : ℚ) (procs : List ProcSample)
    (pid : ℕ) (p : ProcessInfo) (hp : lookupPid st.processes pid = some p) :
    ∃ r, lookupPid (st.update now procs).processes pid = some r :=
  lookup_foldl_isSome procs _ pid p hp

/-! ### Helper theorems: display ordering -/

/-- The display key relation is transitive. -/
theorem sortKeyGE_trans (a b c : ProcessInfo)
    (hab : sortKeyGE a b = true) (hbc : sortKeyGE b c = true) :
    sortKeyGE a c = true := by
  simp only [sortKeyGE, decide_eq_true_eq] at hab hbc ⊢
  rcases hab with h | ⟨he, hc⟩ <;> rcases hbc with g | ⟨ge, gc⟩
  · exact Or.inl (g.trans h)
  · refine Or.inl ?_; rw [← ge]; exact h
  · refine Or.inl ?_; rw [he]; exact g
  · exact Or.inr ⟨he.trans ge, gc.trans hc⟩

/-- The display key relation is total. -/
theorem sortKeyGE_total (a b : ProcessInfo) :
    (sortKeyGE a b || sortKeyGE b a) = true := by
  simp only [sortKeyGE, decide_eq_true_eq, Bool.or_eq_true]
  rcases lt_trichotomy a.percent_mem b.percent_mem with h | h | h
  · exact Or.inr (Or.inl h)
  · rcases le_total a.percent_cpu b.percent_cpu with hc | hc
    · exact Or.inr (Or.inr ⟨h.symm, hc⟩)
    · exact Or.inl (Or.inr ⟨h, hc⟩)
  · exact Or.inl (Or.inl h)

/-- The display order is a permutation of the input collection. -/
theorem displaySort_perm (l : List ProcessInfo) : (displaySort l).Perm l :=
  List.mergeSort_perm l sortKeyGE

/-- The display order is sorted under the key relation. -/
theorem displaySort_sorted (l : List ProcessInfo) :
    (displaySort l).Pairwise (fun a b => sortKeyGE a b = true) :=
  List.sorted_mergeSort sortKeyGE_trans sortKeyGE_total l

/-- Memory share never increases along the display order: memory takes
priority regardless of CPU shares. -/
theorem displaySort_mem_desc (l : List ProcessInfo) :
    (displaySort l).Pairwise (fun a b => b.percent_mem ≤ a.percent_mem) := by
  refine (displaySort_sorted l).imp ?_
  intro a b h
  simp only [sortKeyGE, decide_eq_true_eq] at h
  rcases h with h | ⟨he, _⟩
  · exact le_of_lt h
  · exact le_of_eq he.symm

/-- On equal memory shares, CPU share never increases along the display
order. -/
theorem displaySort_cpu_desc_on_mem_ties (l : List ProcessInfo) :
    (displaySort l).Pairwise
      (fun a b => a.percent_mem = b.percent_mem → b.percent_cpu ≤ a.percent_cpu) := by
  refine (displaySort_sorted l).imp ?_
  intro a b h he
  simp only [sortKeyGE, decide_eq_true_eq] at h
  rcases h with h | ⟨_, hc⟩
  · rw [he] at h; exact absurd h (lt_irrefl _)
  · exact hc

/-- Stability: any key-respecting pair keeps its relative order, so full
key ties keep their insertion order. -/
theorem displaySort_stable (l : List ProcessInfo) (a b : ProcessInfo)
    (hk : sortKeyGE a b = true) (hs : List.Sublist [a, b] l) :
    List.Sublist [a, b] (displaySort l) :=
  List.sublist_mergeSort sortKeyGE_trans sortKeyGE_total
    (by simp [List.pairwise_cons, hk]) hs

/-! ### Claim theorems -/

/-- Claim C1 (refuted by the code — evaluation of the divergence): on an
engine state whose two snapshots are separated by a positive elapsed
interval of 2.0 seconds with a combined CPU delta of 1.0 second, the
figure `ProcessStats.print` computes and displays is 0.5, whereas the
claimed formula `(Δtotal_sys + Δtotal_user) / elapsed_seconds * 100`
gives 50: the source omits the multiplication by 100. -/
theorem aggregate_cpu_eval :
    stC1.timestamp - stC1.previous_timestamp = 2 ∧
    cpu_utilization_percentage stC1 = 1/2 ∧
    (stC1.total_sys_time - stC1.previous_total_sys_time + stC1.total_user_time
      - stC1.previous_total_user_time) / (stC1.timestamp - stC1.previous_timestamp)
      * 100 = 50 ∧
    cpu_utilization_percentage stC1 ≠ 50 := by
  refine ⟨?_, ?_, ?_, ?_⟩ <;>
    norm_num [stC1, exSt0, sampleA, sampleB, ProcessStats.update, step, lookupPid,
      setPid, ProcessInfo.update_stats, ProcessInfo.init, cpu_utilization_percentage,
      truncOwner]

/-- Claim C2 (counterexample): a record seen in only one cycle so far,
held by an engine whose limits are loaded, with `resident_bytes` equal
to `memory_limit_bytes = 1000`, has `percent_mem = 0`, not
`resident_bytes / memory_limit_bytes * 100 = 100`. -/
theorem percent_mem_counterexample :
    stC2.memory_limit_bytes = 1000 ∧
    (lookupPid stC2.processes 1).map ProcessInfo.res = some 1000 ∧
    (lookupPid stC2.processes 1).map ProcessInfo.percent_mem = some 0 ∧
    (0 : ℚ) ≠ (1000 : ℚ) / (1000 : ℚ) * 100 :=
  ⟨by decide, by decide, by decide, by norm_num⟩

/-- Claim C2 (amended): a record whose pid was already stored and is
sampled once in a cycle ends the cycle with
`percent_mem = resident_bytes / memory_limit_bytes * 100` — in
particular 100 when `resident_bytes` equals a nonzero limit — while a
record created in the current cycle (first sighting) has
`percent_mem = 0`. -/
theorem percent_mem_amended_spec :
    (∀ (st : ProcessStats) (now : ℚ) (l₁ l₂ : List ProcSample) (s : ProcSample)
        (p : ProcessInfo),
      s.pid ∉ l₁.map ProcSample.pid → s.pid ∉ l₂.map ProcSample.pid →
      lookupPid st.processes s.pid = some p →
      ∃ r, lookupPid (st.update now (l₁ ++ s :: l₂)).processes s.pid = some r ∧
        r.percent_mem = (s.rss : ℚ) / (st.memory_limit_bytes : ℚ) * 100 ∧
        (s.rss = st.memory_limit_bytes → st.memory_limit_bytes ≠ 0 →
          r.percent_mem = 100)) ∧
    (∀ (st : ProcessStats) (now : ℚ) (l₁ l₂ : List ProcSample) (s : ProcSample),
      s.pid ∉ l₁.map ProcSample.pid → s.pid ∉ l₂.map ProcSample.pid →
      lookupPid st.processes s.pid = none →
      ∃ r, lookupPid (st.update now (l₁ ++ s :: l₂)).processes s.pid = some r ∧
        r.percent_mem = 0) := by
  constructor
  · intro st now l₁ l₂ s p h₁ h₂ hp
    refine ⟨_, update_lookup_present st now l₁ l₂ s p h₁ h₂ hp, rfl, ?_⟩
    intro hres hnz
    show (s.rss : ℚ) / (st.memory_limit_bytes : ℚ) * 100 = 100
    rw [hres, div_self (by exact_mod_cast hnz), one_mul]
  · intro st now l₁ l₂ s h₁ h₂ hp
    exact ⟨_, update_lookup_absent st now l₁ l₂ s h₁ h₂ hp, rfl⟩

/-- Witness for the amended claim C2: the full-limit process, updated in
its second cycle, reports `percent_mem = 100`. -/
theorem percent_mem_amended_spec_witness :
    ∃ r, lookupPid ((stFresh.update 1 [sFull]).update 2 [sFull2]).processes 1 =
        some r ∧ r.percent_mem = 100 := by
  obtain ⟨r, hr, hm, h100⟩ :=
    percent_mem_amended_spec.1 (stFresh.update 1 [sFull]) 2 [] [] sFull2 pFull
      (by simp) (by simp) (by decide)
  exact ⟨r, hr, h100 (by decide) (by decide)⟩

/-- Claim C3: `si_unit 999 = "999.0B"`, `si_unit 1000 = "1.0k"`,
`si_unit 1_500_000 = "1.5M"` (base-1000 scaling, one decimal place); the
suffix the loop selects is the entry of `("B","k","M","G","T","P","E","Z")`
at position `unitIdx`, that position is monotonically non-decreasing as
the input grows over the byte counts, and it never advances past `"Z"`
(position 7). -/
theorem si_unit_spec :
    si_unit 999 = "999.0B" ∧ si_unit 1000 = "1.0k" ∧
    si_unit 1500000 = "1.5M" ∧
    (∀ q : ℚ, (siLoop q siUnits).2 = siUnits.getD (unitIdx q) "B") ∧
    (∀ m n : ℕ, m ≤ n → unitIdx (m : ℚ) ≤ unitIdx (n : ℚ)) ∧
    (∀ q : ℚ, unitIdx q ≤ 7) :=
  ⟨si_unit_999, si_unit_1000, si_unit_1500000, siLoop_suffix_eq,
   fun m n h => unitIdx_mono_rat m n (by positivity) (by exact_mod_cast h),
   unitIdx_le_seven⟩

/-- Witness for claim C3: the monotonicity clause applied at 5 ≤ 2000. -/
theorem si_unit_spec_witness :
    unitIdx ((5:ℕ) : ℚ) ≤ unitIdx ((2000:ℕ) : ℚ) :=
  si_unit_spec.2.2.2.2.1 5 2000 (by norm_num)

/-- Claim C4: a record whose pid was already stored and is sampled once
in a cycle ends the cycle with
`percent_cpu = (Δsys + Δuser) / elapsed * 100`, where the deltas are
against the record's own previous CPU seconds and `elapsed` is the same
global wall-clock interval `timestamp - previous_timestamp` used for the
aggregate. -/
theorem percent_cpu_update_spec (st : ProcessStats) (now : ℚ)
    (l₁ l₂ : List ProcSample) (s : ProcSample) (p : ProcessInfo)
    (h₁ : s.pid ∉ l₁.map ProcSample.pid) (h₂ : s.pid ∉ l₂.map ProcSample.pid)
    (hp : lookupPid st.processes s.pid = some p) :
    ∃ r, lookupPid (st.update now (l₁ ++ s :: l₂)).processes s.pid = some r ∧
      r.percent_cpu =
        (s.system - p.sys_time + s.user - p.user_time) / (now - st.timestamp) * 100 ∧
      now - st.timestamp =
        (st.update now (l₁ ++ s :: l₂)).timestamp -
          (st.update now (l₁ ++ s :: l₂)).previous_timestamp := by
  refine ⟨_, update_lookup_present st now l₁ l₂ s p h₁ h₂ hp, rfl, ?_⟩
  unfold ProcessStats.update
  obtain ⟨-, f2, f3⟩ := foldl_frame (l₁ ++ s :: l₂) _
  rw [f2, f3]

/-- Witness for claim C4: elapsed 2.0 seconds and a combined CPU delta of
1.0 second yield `percent_cpu = 50`. -/
theorem percent_cpu_update_spec_witness :
    ∃ r, lookupPid (stW4.update 3 [sampleB]).processes 1 = some r ∧
      r.percent_cpu = 50 := by
  obtain ⟨r, hr, hc, -⟩ :=
    percent_cpu_update_spec stW4 3 [] [] sampleB pW4 (by simp) (by simp) (by decide)
  refine ⟨r, hr, ?_⟩
  rw [hc]
  have ht : stW4.timestamp = 1 := rfl
  have hs : pW4.sys_time = 1 := rfl
  have hu : pW4.user_time = 1 := rfl
  rw [ht, hs, hu]
  show ((3:ℚ)/2 - 1 + 3/2 - 1) / (3 - 1) * 100 = 50
  norm_num

/-- Claim C5: a pid sampled for the first time in a cycle ends the cycle
with a record whose `percent_cpu` is 0 regardless of its actual
cumulative CPU time, and whose previous CPU fields equal the current
ones (both set from the sample). -/
theorem first_seen_spec (st : ProcessStats) (now : ℚ)
    (l₁ l₂ : List ProcSample) (s : ProcSample)
    (h₁ : s.pid ∉ l₁.map ProcSample.pid) (h₂ : s.pid ∉ l₂.map ProcSample.pid)
    (hp : lookupPid st.processes s.pid = none) :
    ∃ r, lookupPid (st.update now (l₁ ++ s :: l₂)).processes s.pid = some r ∧
      r.percent_cpu = 0 ∧
      r.previous_sys_time = r.sys_time ∧ r.previous_user_time = r.user_time ∧
      r.sys_time = s.system ∧ r.user_time = s.user :=
  ⟨_, update_lookup_absent st now l₁ l₂ s h₁ h₂ hp, rfl, rfl, rfl, rfl, rfl⟩

/-- Witness for claim C5: a first-seen process with 100 cumulative CPU
seconds still gets `percent_cpu = 0` and equal previous/current fields. -/
theorem first_seen_spec_witness :
    ∃ r, lookupPid (exSt0.update 1 [sBusy]).processes 7 = some r ∧
      r.percent_cpu = 0 ∧
      r.previous_sys_time = r.sys_time ∧ r.previous_user_time = r.user_time ∧
      r.sys_time = 41 ∧ r.user_time = 59 :=
  first_seen_spec exSt0 1 [] [] sBusy (by simp) (by simp) (by decide)

/-- Claim C6: the display order is a stable descending sort on the key
`(percent_mem, percent_cpu)`: it permutes the collection, memory share
takes priority regardless of CPU (a `percent_mem = 80` record precedes a
`percent_mem = 40` one even when the latter has the larger CPU share),
equal memory shares order by CPU descending, and records equal on both
keys keep their insertion (first-seen) order. -/
theorem display_order_spec :
    (∀ st : ProcessStats,
      (ProcessStats.displayList st).Perm (st.processes.map Prod.snd)) ∧
    (∀ st : ProcessStats,
      (ProcessStats.displayList st).Pairwise (fun a b => sortKeyGE a b = true)) ∧
    (∀ l : List ProcessInfo,
      (displaySort l).Pairwise (fun a b => b.percent_mem ≤ a.percent_mem)) ∧
    (∀ l : List ProcessInfo,
      (displaySort l).Pairwise
        (fun a b => a.percent_mem = b.percent_mem → b.percent_cpu ≤ a.percent_cpu)) ∧
    (∀ (l : List ProcessInfo) (a b : ProcessInfo),
      sortKeyGE a b = true → List.Sublist [a, b] l →
      List.Sublist [a, b] (displaySort l)) ∧
    displaySort [rMemLo, rMemHi] = [rMemHi, rMemLo] ∧
    displaySort [rCpuLo, rCpuHi] = [rCpuHi, rCpuLo] ∧
    displaySort [rTieA, rTieB] = [rTieA, rTieB] := by
  refine ⟨fun st => displaySort_perm _, fun st => displaySort_sorted _,
    displaySort_mem_desc, displaySort_cpu_desc_on_mem_ties, displaySort_stable,
    ?_, ?_, ?_⟩
  · norm_num [displaySort, List.mergeSort, sortKeyGE, rMemLo, rMemHi]
  · norm_num [displaySort, List.mergeSort, sortKeyGE, rCpuLo, rCpuHi]
  · norm_num [displaySort, List.mergeSort, sortKeyGE, rTieA, rTieB]

/-- Witness for claim C6: a fully tied pair keeps its insertion order
inside a larger collection. -/
theorem display_order_spec_witness :
    List.Sublist [rTieA, rTieB] (displaySort [rMemHi, rTieA, rTieB]) :=
  display_order_spec.2.2.2.2.1 [rMemHi, rTieA, rTieB] rTieA rTieB (by decide)
    (List.Sublist.cons rMemHi (List.Sublist.refl [rTieA, rTieB]))

/-- Claim C7: the documented cgroup content parses to
`memory_limit_bytes = 1073741824` and `buff_cache_bytes = 204800` (field
order and surrounding text irrelevant: a reordered content with a junk
line parses identically), and any content from which a required field
name is absent makes loading the limits terminate fatally with exit
code 1, with no default and no recovery. -/
theorem parse_memory_stat_spec :
    loadLimits ("hierarchical_memory_limit 1073741824\ntotal_cache 204800\n".toList) =
      Except.ok (1073741824, 204800) ∧
    loadLimits ("junk 7\ntotal_cache 204800\nhierarchical_memory_limit 1073741824\n".toList) =
      Except.ok (1073741824, 204800) ∧
    (∀ content : List Char, occursIn hierName content = false →
      ∃ e : ParseErr, loadLimits content = Except.error e ∧ e.exitCode = 1) ∧
    (∀ content : List Char, occursIn cacheName content = false →
      ∃ e : ParseErr, loadLimits content = Except.error e ∧ e.exitCode = 1) := by
  refine ⟨by rfl, by rfl, ?_, ?_⟩
  · intro content h
    refine ⟨ParseErr.notFound, ?_, rfl⟩
    unfold loadLimits
    rw [parse_absent h]
  · intro content h
    unfold loadLimits
    cases hm : parse_memory_stat_content hierName content with
    | error e => exact ⟨e, rfl, rfl⟩
    | ok m =>
      refine ⟨ParseErr.notFound, ?_, rfl⟩
      rw [parse_absent h]

/-- Witness for claim C7: content lacking the memory-limit field is a
fatal exit-code-1 error. -/
theorem parse_memory_stat_spec_witness :
    ∃ e : ParseErr, loadLimits ("total_cache 204800\n".toList) = Except.error e ∧
      e.exitCode = 1 :=
  parse_memory_stat_spec.2.2.1 ("total_cache 204800\n".toList) (by decide)

/-- Claim C8: across every sequence of sampling cycles, a pid once
stored keeps a record — no cycle removes it, even when the pid is absent
from every later enumeration. -/
theorem pid_retention_spec (st : ProcessStats) (cycles : List (ℚ × List ProcSample))
    (pid : ℕ) (p : ProcessInfo) (hp : lookupPid st.processes pid = some p) :
    ∃ r, lookupPid (applyCycles st cycles).processes pid = some r := by
  induction cycles generalizing st p with
  | nil => exact ⟨p, hp⟩
  | cons c t ih =>
    obtain ⟨r, hr⟩ := update_lookup_isSome st c.1 c.2 pid p hp
    exact ih (st.update c.1 c.2) r hr

/-- Witness for claim C8: pid 1 survives an empty cycle and a cycle
enumerating only pid 2. -/
theorem pid_retention_spec_witness :
    ∃ r, lookupPid (applyCycles stC2 [(2, []), (3, [sOther])]).processes 1 = some r :=
  pid_retention_spec stC2 [(2, []), (3, [sOther])] 1
    (ProcessInfo.init 1 (truncOwner "root".toList) 1000 1 1 "hog".toList) (by decide)

/-- Claim C9: an owner name of at most 8 characters is stored unchanged;
a longer one is stored as its first 7 characters plus the `+`
continuation marker, 8 characters in total; and a record created by the
engine stores exactly `truncOwner` of the sampled username. -/
theorem owner_truncation_spec :
    (∀ u : List Char, u.length ≤ 8 → truncOwner u = u) ∧
    (∀ u : List Char, 8 < u.length →
      (truncOwner u).length = 8 ∧ truncOwner u = u.take 7 ++ ['+']) ∧
    (∀ (st : ProcessStats) (now : ℚ) (l₁ l₂ : List ProcSample) (s : ProcSample),
      s.pid ∉ l₁.map ProcSample.pid → s.pid ∉ l₂.map ProcSample.pid →
      lookupPid st.processes s.pid = none →
      ∃ r, lookupPid (st.update now (l₁ ++ s :: l₂)).processes s.pid = some r ∧
        r.user = truncOwner s.username) := by
  refine ⟨?_, ?_, ?_⟩
  · intro u h
    simp [truncOwner, h]
  · intro u h
    have hn : ¬ u.length ≤ 8 := by omega
    constructor
    · simp only [truncOwner, if_neg hn, List.length_append, List.length_take]
      simp only [List.length_singleton]
      omega
    · simp [truncOwner, if_neg hn]
  · intro st now l₁ l₂ s h₁ h₂ hp
    exact ⟨_, update_lookup_absent st now l₁ l₂ s h₁ h₂ hp, rfl⟩

/-- Witness for claim C9: an 8-character name is kept, a 12-character
name becomes its first 7 characters plus `+`, 8 characters long. -/
theorem owner_truncation_spec_witness :
    truncOwner "abcdefgh".toList = "abcdefgh".toList ∧
    truncOwner "verylongname".toList = "verylon".toList ++ ['+'] ∧
    (truncOwner "verylongname".toList).length = 8 := by
  refine ⟨owner_truncation_spec.1 _ (by decide), ?_,
    (owner_truncation_spec.2.1 _ (by decide)).1⟩
  have h := (owner_truncation_spec.2.1 ("verylongname".toList) (by decide)).2
  rw [h]
  decide

/-- Claim C10: for the two patterns the engine uses, whenever the regex
matches, the captured group is a nonempty run of digit characters, so
integer conversion never fails and the non-integer fatal branch is
unreachable: each parse either returns the integer value of the first
match or fails because the field is absent. -/
theorem parse_int_conversion_total :
    ∀ content : List Char,
      ((∃ n, parse_memory_stat_content hierName content = Except.ok n) ∨
        parse_memory_stat_content hierName content = Except.error ParseErr.notFound) ∧
      ((∃ n, parse_memory_stat_content cacheName content = Except.ok n) ∨
        parse_memory_stat_content cacheName content = Except.error ParseErr.notFound) :=
  fun content => ⟨parse_not_notInt hierName content, parse_not_notInt cacheName content⟩

end LatchTop
